import Mathlib

/-!
Shallow embedding of the state-management core of the sublime-rust editor
shell (src/src/main.rs): the single-open-menu state machine, the dropdown
placement geometry, the directory-child sorting, and the open-tab registry
with its content cache.  Pixel arithmetic (f32 in the source) is modelled
over the rationals; the concrete constants appearing in the source are
small integers, on which rational and f32 arithmetic agree exactly.
-/

/-! ## Menu model (enum OpenMenu, menu-button on_mouse_down handler) -/

/-- The OpenMenu enum of the source: which dropdown, if any, is open. -/
inductive OpenMenu where
  | None
  | File
  | Edit
  | Selection
  | Find
  | View
  | Goto
  | Tools
  | Project
  | Preferences
  | Help
deriving DecidableEq

/-- The menu-button mouse-down handler: open_menu becomes None when the
clicked variant is already open, and the clicked variant otherwise. -/
def toggle (variant cur : OpenMenu) : OpenMenu :=
  if cur = variant then OpenMenu.None else variant

/-- Folding a sequence of toggle clicks over an initial open-menu state. -/
def applyToggles (cur : OpenMenu) (ts : List OpenMenu) : OpenMenu :=
  ts.foldl (fun c m => toggle m c) cur

/-! ## Dropdown placement (btn_width closure and dropdown_left loop) -/

/-- MENU_BUTTON_HORIZONTAL_PADDING_PX constant of the source. -/
def MENU_BUTTON_HORIZONTAL_PADDING_PX : ℚ := 24

/-- MENU_BUTTON_CORRECTION_PX constant of the source. -/
def MENU_BUTTON_CORRECTION_PX : ℚ := 1

/-- The btn_width closure: per-character widths from the glyph table, with
7.0 as the fallback for a missing character, plus the padding constant,
minus the correction constant.  The glyph table is a parameter because it
is data loaded at startup, not part of the source code. -/
def btn_width (char_widths : Char → Option ℚ) (label : String) : ℚ :=
  (label.data.map (fun c => (char_widths c).getD 7)).sum
    + MENU_BUTTON_HORIZONTAL_PADDING_PX - MENU_BUTTON_CORRECTION_PX

/-- The menu_bar_labels slice of the source, in bar order. -/
def menu_bar_labels : List (String × OpenMenu) :=
  [("File", OpenMenu.File),
   ("Edit", OpenMenu.Edit),
   ("Selection", OpenMenu.Selection),
   ("Find", OpenMenu.Find),
   ("View", OpenMenu.View),
   ("Goto", OpenMenu.Goto),
   ("Tools", OpenMenu.Tools),
   ("Project", OpenMenu.Project),
   ("Preferences", OpenMenu.Preferences),
   ("Help", OpenMenu.Help)]

/-- The dropdown_left loop of the source: accumulate button widths until
the label whose variant equals the open menu is reached (break), summing
the widths of all buttons when no label matches. -/
def dropdown_left (char_widths : Char → Option ℚ) (open_menu : OpenMenu) :
    List (String × OpenMenu) → ℚ
  | [] => 0
  | (label, variant) :: rest =>
      if variant = open_menu then 0
      else btn_width char_widths label + dropdown_left char_widths open_menu rest

/-! ## Directory-child listing (render_project_explorer sorting) -/

/-- One successfully yielded directory entry: its file name as a byte
sequence (OsString ordering in the source is bytewise lexicographic) and
the result of its file_type query, none when the metadata read fails. -/
structure DirEntry where
  file_name : List Nat
  file_type_is_dir : Option Bool
deriving DecidableEq

/-- The sort key of the comparator: file_type().map(is_dir).unwrap_or(false),
so an entry whose metadata read fails counts as a non-directory. -/
def entry_is_dir (e : DirEntry) : Bool :=
  e.file_type_is_dir.getD false

/-- Bytewise lexicographic comparison of file names (OsString cmp). -/
def name_cmp : List Nat → List Nat → Ordering
  | [], [] => .eq
  | [], _ :: _ => .lt
  | _ :: _, [] => .gt
  | a :: as, b :: bs =>
      if a < b then .lt else if b < a then .gt else name_cmp as bs

/-- The sort_by comparator of the source: directories before files,
otherwise compare file names. -/
def entry_cmp (a b : DirEntry) : Ordering :=
  match entry_is_dir a, entry_is_dir b with
  | true, false => .lt
  | false, true => .gt
  | _, _ => name_cmp a.file_name b.file_name

/-- Boolean order used to model the stable sort_by of the source. -/
def entry_le (a b : DirEntry) : Bool :=
  entry_cmp a b ≠ .gt

/-- The child-listing step of render_project_explorer.  Input models the
read_dir result: none when reading the directory itself fails, otherwise
the iterator items, each none when that entry errored (filter_map ok skips
those).  The surviving entries are stably sorted by the comparator. -/
def list_children (read_dir : Option (List (Option DirEntry))) : List DirEntry :=
  match read_dir with
  | none => []
  | some entries => (entries.filterMap id).mergeSort entry_le

/-! ## Tab registry (open_tabs / active_tab_index / tab_contents) -/

/-- The tab-registry fields of AppView. -/
structure TabRegistry where
  open_tabs : List String
  active_tab_index : Option Nat
  tab_contents : String → Option String

/-- The registry as initialized in AppView::new. -/
def emptyRegistry : TabRegistry :=
  { open_tabs := [], active_tab_index := none, tab_contents := fun _ => none }

/-- The file-entry mouse-down handler (open_or_focus): focus the existing
tab for the path if there is one; otherwise read the file (fs models
fs::read_to_string, none on error), and on success cache the content,
push the tab and activate it; on failure do nothing. -/
def open_or_focus (fs : String → Option String) (path : String)
    (s : TabRegistry) : TabRegistry :=
  match s.open_tabs.findIdx? (· == path) with
  | some pos => { s with active_tab_index := some pos }
  | none =>
      match fs path with
      | some content =>
          { open_tabs := s.open_tabs ++ [path]
            active_tab_index := some s.open_tabs.length
            tab_contents := fun q => if q = path then some content else s.tab_contents q }
      | none => s

/-- The tab close-glyph mouse-down handler for the tab rendered at idx:
remove the tab and its cache entry, then re-clamp the active index against
the new length.  The handler only exists for an idx enumerating the
current open_tabs, so idx is in range whenever the event can fire. -/
def close (idx : Nat) (s : TabRegistry) : TabRegistry :=
  let tabs' := s.open_tabs.eraseIdx idx
  let contents' : String → Option String :=
    match s.open_tabs[idx]? with
    | some p => fun q => if q = p then none else s.tab_contents q
    | none => s.tab_contents
  let active' : Option Nat :=
    match s.active_tab_index with
    | some a =>
        if a ≥ tabs'.length then
          (if tabs' = [] then none else some (tabs'.length - 1))
        else some a
    | none => none
  { open_tabs := tabs', active_tab_index := active', tab_contents := contents' }

/-- The tab-body mouse-down handler for the tab rendered at idx: it sets
active_tab_index to idx unconditionally, with no range check. -/
def activate (idx : Nat) (s : TabRegistry) : TabRegistry :=
  { s with active_tab_index := some idx }

/-- The editor-pane content: the cached content of the active tab, or the
placeholder string. -/
def active_content (s : TabRegistry) : String :=
  ((s.active_tab_index.bind fun idx => s.open_tabs[idx]?).bind
      fun p => s.tab_contents p).getD "Hello, Sublime-rust!"

/-- The registry states reachable from the initial one by UI events.  A
close or activate event carries the index of a rendered tab, so its index
is below the current number of tabs; an open event may see any filesystem
content, since files can change between events. -/
inductive Reachable : TabRegistry → Prop
  | init : Reachable emptyRegistry
  | openStep (fs : String → Option String) (path : String) {s : TabRegistry} :
      Reachable s → Reachable (open_or_focus fs path s)
  | closeStep (idx : Nat) {s : TabRegistry} :
      Reachable s → idx < s.open_tabs.length → Reachable (close idx s)
  | activateStep (idx : Nat) {s : TabRegistry} :
      Reachable s → idx < s.open_tabs.length → Reachable (activate idx s)

/-! ## Concrete sample data used below -/

/-- A filesystem with one readable file. -/
def sampleFs : String → Option String :=
  fun p => if p = "/a.txt" then some "X" else none

/-- A filesystem with two readable files. -/
def sampleFs2 : String → Option String :=
  fun p => if p = "/a.txt" then some "X" else if p = "/b.txt" then some "Y" else none

/-- A registry with one open tab. -/
def sampleOne : TabRegistry :=
  { open_tabs := ["/a.txt"]
    active_tab_index := some 0
    tab_contents := fun p => if p = "/a.txt" then some "X" else none }

/-- The two-tab registry of the close scenario in the specification. -/
def sAB : TabRegistry :=
  { open_tabs := ["/a.txt", "/b.txt"]
    active_tab_index := some 1
    tab_contents := fun p =>
      if p = "/a.txt" then some "X" else if p = "/b.txt" then some "Y" else none }

/-- A three-tab registry with the middle tab active. -/
def sABC : TabRegistry :=
  { open_tabs := ["/a.txt", "/b.txt", "/c.txt"]
    active_tab_index := some 1
    tab_contents := fun p =>
      if p = "/a.txt" then some "X"
      else if p = "/b.txt" then some "Y"
      else if p = "/c.txt" then some "Z" else none }

/-- A directory entry whose file-type metadata read fails. -/
def eMeta : DirEntry := { file_name := [97], file_type_is_dir := none }

/-- A glyph table with no entries: every character uses the fallback. -/
def emptyGlyphs : Char → Option ℚ := fun _ => none

/-! ## Helper lemmas -/

lemma findIdx?_beq_none_of_not_mem (p : String) (l : List String) (h : p ∉ l) :
    l.findIdx? (· == p) = none := by
  rw [List.findIdx?_eq_none_iff]
  intro x hx
  simp only [beq_eq_false_iff_ne]
  exact fun hxp => h (hxp ▸ hx)

lemma findIdx?_append_self (l : List String) (p : String) (h : p ∉ l) :
    (l ++ [p]).findIdx? (· == p) = some l.length := by
  rw [List.findIdx?_eq_some_iff_getElem]
  refine ⟨by simp, by simp, ?_⟩
  intro j hj
  have hjl : j < l.length := hj
  rw [List.getElem_append_left hjl]
  simp only [beq_iff_eq]
  exact fun hq => h (hq ▸ l.getElem_mem hjl)

/-! ## Claim theorems -/

/-- Claim C5: toggle(m) closes the menu when m is already open and opens m
otherwise; consequently, after any sequence of toggles the open menu is the
target of the last toggle when that target differed from the then-current
state, and None when it matched. -/
theorem toggle_spec :
    (∀ (m s : OpenMenu), toggle m s = if s = m then OpenMenu.None else m) ∧
    (∀ (cur : OpenMenu) (l : List OpenMenu) (t : OpenMenu),
      applyToggles cur (l ++ [t]) =
        if applyToggles cur l = t then OpenMenu.None else t) := by
  constructor
  · intro m s
    rfl
  · intro cur l t
    simp [applyToggles, List.foldl_append, toggle]

/-- Claim C9 counterexample: activate with the out-of-range index 5 on a one-tab
registry is not rejected: it changes the state, leaving an out-of-range
active index. -/
theorem activate_counterexample :
    sampleOne.open_tabs.length ≤ 5 ∧
    (activate 5 sampleOne).active_tab_index = some 5 ∧
    activate 5 sampleOne ≠ sampleOne := by
  refine ⟨by simp [sampleOne], rfl, fun h => ?_⟩
  have : (activate 5 sampleOne).active_tab_index = sampleOne.active_tab_index := by rw [h]
  simp [activate, sampleOne] at this

/-- Claim C9 amended: activate(i) unconditionally sets the active index to i,
with no range check; the tab sequence and the content cache are unchanged.
Out-of-range indices are not rejected; in the UI the handler only exists
for indices of currently rendered tabs. -/
theorem activate_unconditional (s : TabRegistry) (idx : Nat) :
    (activate idx s).open_tabs = s.open_tabs ∧
    (activate idx s).tab_contents = s.tab_contents ∧
    (activate idx s).active_tab_index = some idx :=
  ⟨rfl, rfl, rfl⟩

/-- Claim C3: when the path is not already open and reading it fails,
open_or_focus leaves the whole registry unchanged. -/
theorem open_or_focus_error_noop (fs : String → Option String) (path : String)
    (s : TabRegistry) (hmem : path ∉ s.open_tabs) (hfs : fs path = none) :
    open_or_focus fs path s = s := by
  unfold open_or_focus
  rw [findIdx?_beq_none_of_not_mem path s.open_tabs hmem, hfs]

/-- Claim C3 witness: a failing read of a path not among the open tabs leaves a
concrete one-tab registry unchanged. -/
theorem open_or_focus_error_noop_witness :
    open_or_focus sampleFs "/b.txt" sampleOne = sampleOne :=
  open_or_focus_error_noop sampleFs "/b.txt" sampleOne (by decide) rfl

/-- Claim C2: when a tab for the path already exists, open_or_focus only moves
the active index to a position holding that path (no new tab, no reload);
consequently opening a fresh path twice yields exactly one tab for it,
with the active index pointing at it both times, even if the file content
on disk changes between the two calls. -/
theorem open_or_focus_dedup :
    (∀ (fs : String → Option String) (s : TabRegistry) (path : String),
      path ∈ s.open_tabs →
        (open_or_focus fs path s).open_tabs = s.open_tabs ∧
        (open_or_focus fs path s).tab_contents = s.tab_contents ∧
        ∃ pos, (open_or_focus fs path s).active_tab_index = some pos ∧
          s.open_tabs[pos]? = some path) ∧
    (∀ (fs fs2 : String → Option String) (s : TabRegistry) (path c : String),
      path ∉ s.open_tabs → fs path = some c →
        (open_or_focus fs path s).open_tabs = s.open_tabs ++ [path] ∧
        (open_or_focus fs path s).open_tabs.count path = 1 ∧
        (open_or_focus fs path s).active_tab_index = some s.open_tabs.length ∧
        (open_or_focus fs path s).open_tabs[s.open_tabs.length]? = some path ∧
        (open_or_focus fs2 path (open_or_focus fs path s)).open_tabs
          = (open_or_focus fs path s).open_tabs ∧
        (open_or_focus fs2 path (open_or_focus fs path s)).tab_contents
          = (open_or_focus fs path s).tab_contents ∧
        (open_or_focus fs2 path (open_or_focus fs path s)).active_tab_index
          = some s.open_tabs.length) := by
  constructor
  · intro fs s path hmem
    rcases hfind : s.open_tabs.findIdx? (· == path) with _ | pos
    · rw [List.findIdx?_eq_none_iff] at hfind
      have := hfind path hmem
      simp at this
    · obtain ⟨hlt, hbeq, -⟩ := List.findIdx?_eq_some_iff_getElem.mp hfind
      unfold open_or_focus
      rw [hfind]
      refine ⟨rfl, rfl, pos, rfl, ?_⟩
      rw [List.getElem?_eq_getElem hlt]
      simp only [beq_iff_eq] at hbeq
      rw [hbeq]
  · intro fs fs2 s path c hmem hfs
    have h1 : s.open_tabs.findIdx? (· == path) = none :=
      findIdx?_beq_none_of_not_mem path s.open_tabs hmem
    have e1 : open_or_focus fs path s =
        { open_tabs := s.open_tabs ++ [path]
          active_tab_index := some s.open_tabs.length
          tab_contents := fun q => if q = path then some c else s.tab_contents q } := by
      unfold open_or_focus
      rw [h1, hfs]
    have h2 : (s.open_tabs ++ [path]).findIdx? (· == path) = some s.open_tabs.length :=
      findIdx?_append_self s.open_tabs path hmem
    have e2 : open_or_focus fs2 path (open_or_focus fs path s) =
        { open_or_focus fs path s with active_tab_index := some s.open_tabs.length } := by
      rw [e1]
      unfold open_or_focus
      simp only [h2]
    refine ⟨by rw [e1], ?_, by rw [e1], ?_, by rw [e2], by rw [e2], by rw [e2]⟩
    · rw [e1]
      simp only [List.count_append]
      rw [List.count_eq_zero.mpr hmem]
      simp
    · rw [e1]
      simp

/-- Claim C2 witness: focusing an already open path on a concrete one-tab
registry, and opening a fresh path twice on the same registry. -/
theorem open_or_focus_dedup_witness :
    (open_or_focus sampleFs2 "/a.txt" sampleOne).open_tabs = sampleOne.open_tabs ∧
    (open_or_focus sampleFs2 "/b.txt" sampleOne).open_tabs.count "/b.txt" = 1 ∧
    (open_or_focus sampleFs2 "/b.txt" (open_or_focus sampleFs2 "/b.txt" sampleOne)).open_tabs
      = (open_or_focus sampleFs2 "/b.txt" sampleOne).open_tabs ∧
    (open_or_focus sampleFs2 "/b.txt" (open_or_focus sampleFs2 "/b.txt" sampleOne)).active_tab_index
      = some sampleOne.open_tabs.length := by
  have h1 := (open_or_focus_dedup.1 sampleFs2 sampleOne "/a.txt" (by decide)).1
  have h2 := open_or_focus_dedup.2 sampleFs2 sampleFs2 sampleOne "/b.txt" "Y" (by decide) rfl
  exact ⟨h1, h2.2.1, h2.2.2.2.2.1, h2.2.2.2.2.2.2⟩

/-- Claim C4: closing the tab rendered at a valid index removes exactly that tab
(later tabs shift down by one), removes the content-cache entry for its
path, and re-clamps the active index: it becomes None when the sequence
becomes empty, stays put when still in range, and drops to the new last
index when it would exceed it. -/
theorem close_spec (s : TabRegistry) (idx : Nat) (h : idx < s.open_tabs.length) :
    (close idx s).open_tabs.length = s.open_tabs.length - 1 ∧
    (∀ j, j < idx → (close idx s).open_tabs[j]? = s.open_tabs[j]?) ∧
    (∀ j, idx ≤ j → (close idx s).open_tabs[j]? = s.open_tabs[j + 1]?) ∧
    (∀ p, s.open_tabs[idx]? = some p → (close idx s).tab_contents p = none) ∧
    (s.open_tabs.length = 1 → (close idx s).active_tab_index = none) ∧
    (∀ a, s.active_tab_index = some a → a < s.open_tabs.length - 1 →
      (close idx s).active_tab_index = some a) ∧
    (∀ a, s.active_tab_index = some a → s.open_tabs.length - 1 ≤ a →
      2 ≤ s.open_tabs.length →
      (close idx s).active_tab_index = some (s.open_tabs.length - 2)) := by
  have hlen : (s.open_tabs.eraseIdx idx).length = s.open_tabs.length - 1 := by
    rw [List.length_eraseIdx, if_pos h]
  refine ⟨?_, ?_, ?_, ?_, ?_, ?_, ?_⟩
  · simp only [close]
    exact hlen
  · intro j hj
    simp only [close]
    rw [List.getElem?_eraseIdx, if_pos hj]
  · intro j hj
    simp only [close]
    rw [List.getElem?_eraseIdx, if_neg (by omega)]
  · intro p hp
    simp only [close, hp]
    simp
  · intro h1
    simp only [close]
    have hnil : s.open_tabs.eraseIdx idx = [] := by
      rw [← List.length_eq_zero]
      omega
    rcases ha : s.active_tab_index with _ | a
    · simp
    · simp [hnil]
  · intro a ha hlt
    simp only [close, ha]
    rw [if_neg (by omega)]
  · intro a ha hge h2
    simp only [close, ha]
    rw [if_pos (by omega)]
    have hne : s.open_tabs.eraseIdx idx ≠ [] := by
      rw [← List.length_pos]
      omega
    rw [if_neg hne, hlen]
    exact rfl

/-- Claim C4 witness: the scenario of the specification, with tabs /a.txt and
/b.txt, content X and Y, active index 1: closing index 0 leaves tabs
[/b.txt], active index 0, cache entry for /a.txt gone, and the editor pane
showing Y. -/
theorem close_spec_witness :
    (close 0 sAB).open_tabs = ["/b.txt"] ∧
    (close 0 sAB).active_tab_index = some 0 ∧
    (close 0 sAB).tab_contents "/a.txt" = none ∧
    active_content (close 0 sAB) = "Y" :=
  ⟨rfl, rfl, (close_spec sAB 0 (by simp [sAB])).2.2.2.1 "/a.txt" rfl, rfl⟩

/-- Claim C10 counterexample: with two open tabs and active index 1, closing
index 0 does not leave the active index at 1: it is re-clamped to 0,
because the old index 1 now exceeds the new last valid index. -/
theorem close_before_active_counterexample :
    sAB.open_tabs.length = 2 ∧
    sAB.active_tab_index = some 1 ∧
    (close 0 sAB).active_tab_index ≠ some 1 := by
  refine ⟨rfl, rfl, ?_⟩
  intro hcontra
  have : (close 0 sAB).active_tab_index = some 0 := rfl
  rw [this] at hcontra
  simp at hcontra

/-- Claim C10 amended: closing at an index i strictly below the active index a
keeps the active index numerically at a only when a is not the last valid
index; the active index then denotes the tab that previously followed the
displayed one.  When a is the last valid index, it is re-clamped to a - 1,
which then denotes the tab that was displayed. -/
theorem close_before_active :
    (∀ (s : TabRegistry) (i a : Nat),
      s.active_tab_index = some a → i < a → a + 1 < s.open_tabs.length →
        (close i s).active_tab_index = some a ∧
        (close i s).open_tabs[a]? = s.open_tabs[a + 1]?) ∧
    (∀ (s : TabRegistry) (i a : Nat),
      s.active_tab_index = some a → i < a → a + 1 = s.open_tabs.length →
        (close i s).active_tab_index = some (a - 1) ∧
        (close i s).open_tabs[a - 1]? = s.open_tabs[a]?) := by
  constructor
  · intro s i a ha hia hlast
    have hlen : (s.open_tabs.eraseIdx i).length = s.open_tabs.length - 1 := by
      rw [List.length_eraseIdx, if_pos (by omega)]
    constructor
    · simp only [close, ha]
      rw [if_neg (by omega)]
    · simp only [close]
      rw [List.getElem?_eraseIdx, if_neg (by omega)]
  · intro s i a ha hia hlast
    have hlen : (s.open_tabs.eraseIdx i).length = s.open_tabs.length - 1 := by
      rw [List.length_eraseIdx, if_pos (by omega)]
    have hne : s.open_tabs.eraseIdx i ≠ [] := by
      rw [← List.length_pos]
      omega
    constructor
    · simp only [close, ha]
      rw [if_pos (by omega), if_neg hne, hlen]
      congr 1
      omega
    · simp only [close]
      rw [List.getElem?_eraseIdx, if_neg (by omega)]
      congr 1
      omega

/-- Claim C10 witness: with three tabs and active index 1, closing index 0 keeps
the active index at 1, now denoting the tab previously at position 2; with
two tabs and active index 1, closing index 0 re-clamps it to 0. -/
theorem close_before_active_witness :
    ((close 0 sABC).active_tab_index = some 1 ∧
      (close 0 sABC).open_tabs[1]? = sABC.open_tabs[2]?) ∧
    ((close 0 sAB).active_tab_index = some 0 ∧
      (close 0 sAB).open_tabs[0]? = sAB.open_tabs[1]?) :=
  ⟨close_before_active.1 sABC 0 1 rfl (by omega) (by simp [sABC]),
   close_before_active.2 sAB 0 1 rfl (by omega) (by simp [sAB])⟩

/-- Claim C1: every registry state reachable from the initial empty registry by
UI events satisfies the tab invariant: the active index is None exactly
when there are no open tabs, and is otherwise a valid index into them. -/
theorem tab_invariant (s : TabRegistry) (h : Reachable s) :
    (s.active_tab_index = none ↔ s.open_tabs = []) ∧
    (∀ a, s.active_tab_index = some a → a < s.open_tabs.length) := by
  induction h with
  | init =>
      simp [emptyRegistry]
  | openStep fs path hs ih =>
      rename_i s'
      rcases hfind : s'.open_tabs.findIdx? (· == path) with _ | pos
      · rcases hfs : fs path with _ | c
        · have e : open_or_focus fs path s' = s' := by
            unfold open_or_focus
            rw [hfind, hfs]
          rw [e]
          exact ih
        · have e : open_or_focus fs path s' =
              { open_tabs := s'.open_tabs ++ [path]
                active_tab_index := some s'.open_tabs.length
                tab_contents := fun q => if q = path then some c else s'.tab_contents q } := by
            unfold open_or_focus
            rw [hfind, hfs]
          rw [e]
          constructor
          · simp
          · intro a ha
            simp only [Option.some.injEq] at ha
            simp [← ha]
      · obtain ⟨hpos, -, -⟩ := List.findIdx?_eq_some_iff_getElem.mp hfind
        have e : open_or_focus fs path s' = { s' with active_tab_index := some pos } := by
          unfold open_or_focus
          rw [hfind]
        rw [e]
        constructor
        · constructor
          · intro hcontra
            simp at hcontra
          · intro hnil
            rw [hnil] at hpos
            simp at hpos
        · intro a ha
          simp only [Option.some.injEq] at ha
          subst ha
          simpa using hpos
  | closeStep idx hs hlt ih =>
      rename_i s'
      rcases ha : s'.active_tab_index with _ | a
      · have : s'.open_tabs = [] := ih.1.mp ha
        rw [this] at hlt
        simp at hlt
      · have haval : a < s'.open_tabs.length := ih.2 a ha
        have hlen : (s'.open_tabs.eraseIdx idx).length = s'.open_tabs.length - 1 := by
          rw [List.length_eraseIdx, if_pos hlt]
        by_cases hemp : s'.open_tabs.eraseIdx idx = []
        · have : a ≥ (s'.open_tabs.eraseIdx idx).length := by
            rw [hemp]
            simp
          constructor
          · simp only [close, ha]
            rw [if_pos this, if_pos hemp]
            simp [hemp]
          · intro b hb
            simp only [close, ha] at hb
            rw [if_pos this, if_pos hemp] at hb
            simp at hb
        · have hpos : 0 < (s'.open_tabs.eraseIdx idx).length := List.length_pos.mpr hemp
          by_cases hclamp : a ≥ (s'.open_tabs.eraseIdx idx).length
          · constructor
            · simp only [close, ha]
              rw [if_pos hclamp, if_neg hemp]
              simp [hemp]
            · intro b hb
              simp only [close, ha] at hb
              rw [if_pos hclamp, if_neg hemp] at hb
              simp only [Option.some.injEq] at hb
              simp only [close]
              omega
          · constructor
            · simp only [close, ha]
              rw [if_neg hclamp]
              simp [hemp]
            · intro b hb
              simp only [close, ha] at hb
              rw [if_neg hclamp] at hb
              simp only [Option.some.injEq] at hb
              simp only [close]
              omega
  | activateStep idx hs hlt ih =>
      rename_i s'
      constructor
      · constructor
        · intro hcontra
          simp [activate] at hcontra
        · intro hnil
          simp only [activate] at hnil
          rw [hnil] at hlt
          simp at hlt
      · intro a ha
        simp only [activate, Option.some.injEq] at ha
        simp only [activate]
        omega

/-- Claim C1 witness: the invariant evaluated at the concrete reachable one-tab
state obtained by opening /a.txt from the empty registry. -/
theorem tab_invariant_witness :
    (sampleOne.active_tab_index = none ↔ sampleOne.open_tabs = []) ∧
    (∀ a, sampleOne.active_tab_index = some a → a < sampleOne.open_tabs.length) :=
  tab_invariant sampleOne (Reachable.openStep sampleFs "/a.txt" Reachable.init)

/-- Claim C6 counterexample: with an empty glyph table (every character at the
fallback width 7), the dropdown offset for the open menu None over the
real menu bar is 622, the total width of all ten buttons, not 0: None
matches no label, so the loop never breaks. -/
theorem dropdown_left_none_counterexample :
    dropdown_left emptyGlyphs OpenMenu.None menu_bar_labels = 622 ∧ (622 : ℚ) ≠ 0 := by
  constructor
  · simp only [menu_bar_labels, dropdown_left]
    rw [if_neg (by decide), if_neg (by decide), if_neg (by decide), if_neg (by decide),
      if_neg (by decide), if_neg (by decide), if_neg (by decide), if_neg (by decide),
      if_neg (by decide), if_neg (by decide)]
    norm_num [btn_width, emptyGlyphs, MENU_BUTTON_HORIZONTAL_PADDING_PX,
      MENU_BUTTON_CORRECTION_PX, String.data]
  · norm_num

/-- Claim C6 amended: when the open menu occurs in none of the labels, which is
the case for None on the menu bar of the source, the dropdown offset is
the sum of all button widths; it is unused, since no dropdown is drawn
when the open menu is None. -/
theorem dropdown_left_none_total_width (char_widths : Char → Option ℚ)
    (labels : List (String × OpenMenu))
    (h : ∀ x ∈ labels, x.2 ≠ OpenMenu.None) :
    dropdown_left char_widths OpenMenu.None labels =
      (labels.map fun x => btn_width char_widths x.1).sum := by
  induction labels with
  | nil => simp [dropdown_left]
  | cons hd tl ih =>
      obtain ⟨label, variant⟩ := hd
      have hv : variant ≠ OpenMenu.None := h (label, variant) (List.mem_cons_self _ _)
      simp only [dropdown_left, List.map_cons, List.sum_cons]
      rw [if_neg hv, ih (fun x hx => h x (List.mem_cons_of_mem _ hx))]

/-- Claim C6 amended witness: the total-width form evaluated on the real menu
bar with the empty glyph table. -/
theorem dropdown_left_none_total_width_witness :
    dropdown_left emptyGlyphs OpenMenu.None menu_bar_labels =
      (menu_bar_labels.map fun x => btn_width emptyGlyphs x.1).sum :=
  dropdown_left_none_total_width emptyGlyphs menu_bar_labels (by decide)

/-- Claim C7: when the open menu is the variant of a label in the bar and no
label before it carries that variant, the dropdown offset is the sum of
the widths of the buttons strictly before it; and a label with no glyph
entries still yields a width, from the fallback of 7 per character plus
padding 24 minus correction 1. -/
theorem dropdown_left_prefix_sum :
    (∀ (char_widths : Char → Option ℚ) (m : OpenMenu) (label : String)
        (pre post : List (String × OpenMenu)),
      (∀ x ∈ pre, x.2 ≠ m) →
        dropdown_left char_widths m (pre ++ (label, m) :: post) =
          (pre.map fun x => btn_width char_widths x.1).sum) ∧
    (∀ label : String,
      btn_width emptyGlyphs label = 7 * label.data.length + 23) := by
  constructor
  · intro char_widths m label pre post hpre
    induction pre with
    | nil => simp [dropdown_left]
    | cons hd tl ih =>
        obtain ⟨l2, v2⟩ := hd
        have hv : v2 ≠ m := hpre (l2, v2) (List.mem_cons_self _ _)
        simp only [List.cons_append, dropdown_left, List.map_cons, List.sum_cons,
          List.append_eq]
        rw [if_neg hv, ih (fun x hx => hpre x (List.mem_cons_of_mem _ hx))]
  · intro label
    unfold btn_width emptyGlyphs MENU_BUTTON_HORIZONTAL_PADDING_PX MENU_BUTTON_CORRECTION_PX
    have : (label.data.map fun c => ((none : Option ℚ)).getD 7)
        = List.replicate label.data.length 7 := by
      rw [← List.map_const']
      rfl
    rw [this, List.sum_replicate, nsmul_eq_mul]
    ring

/-- Claim C7 witness: with Selection open on the real menu bar and the empty
glyph table, the offset is the width of File plus the width of Edit,
which evaluates to 102. -/
theorem dropdown_left_prefix_sum_witness :
    dropdown_left emptyGlyphs OpenMenu.Selection menu_bar_labels =
      btn_width emptyGlyphs "File" + btn_width emptyGlyphs "Edit" ∧
    btn_width emptyGlyphs "File" + btn_width emptyGlyphs "Edit" = 102 := by
  have h := dropdown_left_prefix_sum.1 emptyGlyphs OpenMenu.Selection "Selection"
    [("File", OpenMenu.File), ("Edit", OpenMenu.Edit)]
    [("Find", OpenMenu.Find), ("View", OpenMenu.View), ("Goto", OpenMenu.Goto),
     ("Tools", OpenMenu.Tools), ("Project", OpenMenu.Project),
     ("Preferences", OpenMenu.Preferences), ("Help", OpenMenu.Help)]
    (by decide)
  constructor
  · rw [show menu_bar_labels =
      [("File", OpenMenu.File), ("Edit", OpenMenu.Edit)] ++
        ("Selection", OpenMenu.Selection) ::
          [("Find", OpenMenu.Find), ("View", OpenMenu.View), ("Goto", OpenMenu.Goto),
           ("Tools", OpenMenu.Tools), ("Project", OpenMenu.Project),
           ("Preferences", OpenMenu.Preferences), ("Help", OpenMenu.Help)] from rfl, h]
    simp
  · norm_num [btn_width, emptyGlyphs, MENU_BUTTON_HORIZONTAL_PADDING_PX,
      MENU_BUTTON_CORRECTION_PX, String.data]

lemma name_cmp_eq (a : List Nat) : ∀ b, name_cmp a b = .eq → a = b := by
  induction a with
  | nil =>
      intro b
      cases b with
      | nil => intro _; rfl
      | cons y bs => intro h; cases h
  | cons x xs ih =>
      intro b
      cases b with
      | nil => intro h; cases h
      | cons y bs =>
          intro h
          rw [name_cmp] at h
          by_cases h1 : x < y
          · rw [if_pos h1] at h; cases h
          · by_cases h2 : y < x
            · rw [if_neg h1, if_pos h2] at h; cases h
            · rw [if_neg h1, if_neg h2] at h
              have hxy : x = y := by omega
              rw [hxy, ih bs h]

lemma name_cmp_gt_to_lt (a : List Nat) : ∀ b, name_cmp a b = .gt → name_cmp b a = .lt := by
  induction a with
  | nil =>
      intro b
      cases b with
      | nil => intro h; cases h
      | cons y bs => intro h; cases h
  | cons x xs ih =>
      intro b
      cases b with
      | nil => intro _; rfl
      | cons y bs =>
          intro h
          rw [name_cmp] at h
          rw [name_cmp]
          by_cases h1 : x < y
          · rw [if_pos h1] at h; cases h
          · by_cases h2 : y < x
            · rw [if_pos h2]
            · rw [if_neg h1, if_neg h2] at h
              rw [if_neg h2, if_neg h1]
              exact ih bs h

lemma name_cmp_lt_trans (a : List Nat) :
    ∀ b c, name_cmp a b = .lt → name_cmp b c = .lt → name_cmp a c = .lt := by
  induction a with
  | nil =>
      intro b c hab hbc
      cases b with
      | nil => cases hab
      | cons y bs =>
          cases c with
          | nil => cases hbc
          | cons z cs => rfl
  | cons x xs ih =>
      intro b c hab hbc
      cases b with
      | nil => cases hab
      | cons y bs =>
          cases c with
          | nil => cases hbc
          | cons z cs =>
              rw [name_cmp] at hab hbc
              rw [name_cmp]
              have hab' : x < y ∨ (x = y ∧ name_cmp xs bs = .lt) := by
                by_cases h1 : x < y
                · exact Or.inl h1
                · by_cases h2 : y < x
                  · rw [if_neg h1, if_pos h2] at hab; cases hab
                  · rw [if_neg h1, if_neg h2] at hab
                    exact Or.inr ⟨by omega, hab⟩
              have hbc' : y < z ∨ (y = z ∧ name_cmp bs cs = .lt) := by
                by_cases h1 : y < z
                · exact Or.inl h1
                · by_cases h2 : z < y
                  · rw [if_neg h1, if_pos h2] at hbc; cases hbc
                  · rw [if_neg h1, if_neg h2] at hbc
                    exact Or.inr ⟨by omega, hbc⟩
              rcases hab' with h1 | ⟨hxy, hxs⟩
              · rcases hbc' with h2 | ⟨hyz, -⟩
                · rw [if_pos (by omega)]
                · rw [if_pos (by omega)]
              · rcases hbc' with h2 | ⟨hyz, hbs⟩
                · rw [if_pos (by omega)]
                · rw [if_neg (by omega), if_neg (by omega)]
                  exact ih bs cs hxs hbs

lemma name_cmp_le_trans {a b c : List Nat}
    (hab : name_cmp a b ≠ .gt) (hbc : name_cmp b c ≠ .gt) : name_cmp a c ≠ .gt := by
  cases h1 : name_cmp a b with
  | lt =>
      cases h2 : name_cmp b c with
      | lt => rw [name_cmp_lt_trans a b c h1 h2]; simp
      | eq => rw [← name_cmp_eq b c h2, h1]; simp
      | gt => exact absurd h2 hbc
  | eq => rw [name_cmp_eq a b h1]; exact hbc
  | gt => exact absurd h1 hab

lemma entry_cmp_eq (a b : DirEntry) :
    entry_cmp a b =
      if entry_is_dir a && !entry_is_dir b then .lt
      else if !entry_is_dir a && entry_is_dir b then .gt
      else name_cmp a.file_name b.file_name := by
  unfold entry_cmp
  cases entry_is_dir a <;> cases entry_is_dir b <;> rfl

lemma entry_cmp_gt_to_lt (a b : DirEntry) : entry_cmp a b = .gt → entry_cmp b a = .lt := by
  unfold entry_cmp
  cases entry_is_dir a <;> cases entry_is_dir b <;> intro h
  · exact name_cmp_gt_to_lt _ _ h
  · exact rfl
  · exact Ordering.noConfusion h
  · exact name_cmp_gt_to_lt _ _ h

lemma entry_cmp_le_trans (a b c : DirEntry)
    (hab : entry_cmp a b ≠ .gt) (hbc : entry_cmp b c ≠ .gt) : entry_cmp a c ≠ .gt := by
  unfold entry_cmp at hab hbc ⊢
  revert hab hbc
  cases entry_is_dir a <;> cases entry_is_dir b <;> cases entry_is_dir c <;> intro hab hbc
  · exact name_cmp_le_trans hab hbc
  · exact absurd rfl hbc
  · exact absurd rfl hab
  · exact absurd rfl hab
  · exact fun hcon => Ordering.noConfusion hcon
  · exact absurd rfl hbc
  · exact fun hcon => Ordering.noConfusion hcon
  · exact name_cmp_le_trans hab hbc

lemma entry_le_trans :
    ∀ (a b c : DirEntry), entry_le a b = true → entry_le b c = true → entry_le a c = true := by
  intro a b c hab hbc
  simp only [entry_le, decide_eq_true_eq] at hab hbc ⊢
  exact entry_cmp_le_trans a b c hab hbc

lemma entry_le_total : ∀ (a b : DirEntry), (entry_le a b || entry_le b a) = true := by
  intro a b
  simp only [entry_le, Bool.or_eq_true, decide_eq_true_eq]
  by_cases h : entry_cmp a b = .gt
  · right
    rw [entry_cmp_gt_to_lt a b h]
    simp
  · exact Or.inl h

/-- Claim C8 counterexample: an entry whose file-type metadata read fails is not
skipped by list_children: it is kept in the output (classified as a
non-directory by the comparator). -/
theorem list_children_metadata_counterexample :
    list_children (some [some eMeta]) = [eMeta] ∧
    eMeta.file_type_is_dir = none ∧
    list_children (some [some eMeta]) ≠ [] := by
  refine ⟨?_, rfl, ?_⟩
  · simp [list_children, List.mergeSort_singleton]
  · simp [list_children, List.mergeSort_singleton]

/-- Claim C8 amended: list_children output is deterministic, contains exactly
the entries successfully yielded by the directory iterator (iterator
errors are skipped; an entry whose file-type metadata read fails is kept
and classified as a file), every entry classified as a directory precedes
every entry classified as a file, within each group names ascend in
bytewise lexicographic order, and a failure to read the directory itself
yields an empty list. -/
theorem list_children_sorted :
    (∀ es : List (Option DirEntry),
      (list_children (some es)).Pairwise (fun a b =>
        (entry_is_dir b = true → entry_is_dir a = true) ∧
        (entry_is_dir a = entry_is_dir b → name_cmp a.file_name b.file_name ≠ .gt))) ∧
    (∀ es : List (Option DirEntry),
      (list_children (some es)).Perm (es.filterMap id)) ∧
    (∀ es : List (Option DirEntry),
      list_children (some (none :: es)) = list_children (some es)) ∧
    list_children none = [] := by
  refine ⟨?_, ?_, ?_, rfl⟩
  · intro es
    have hs := List.sorted_mergeSort entry_le_trans entry_le_total (es.filterMap id)
    refine hs.imp ?_
    intro a b hab
    simp only [entry_le, decide_eq_true_eq] at hab
    rw [entry_cmp_eq] at hab
    constructor
    · intro hb
      by_contra hane
      have ha : entry_is_dir a = false := by
        cases hcase : entry_is_dir a
        · rfl
        · exact absurd hcase hane
      rw [ha, hb] at hab
      simp at hab
    · intro heq
      rw [heq] at hab
      cases hb : entry_is_dir b <;> rw [hb] at hab <;> simpa using hab
  · intro es
    exact List.mergeSort_perm _ _
  · intro es
    simp [list_children, List.filterMap_cons]
